/-
Verification of the VibeVoice-ComfyUI project/timeline core
(`vvproject/project.py`, `vvproject/audio.py`, `vvproject/engine.py`)
against its natural-language specification.

Shallow embedding conventions:
* Python `int` is modelled as `Int`; Python `float` arithmetic is modelled
  as exact rational arithmetic (`Rat`) together with Python's
  round-half-to-even (`pyRoundFrac`).
* JSON documents (the output of `json.dump` / input of `json.loads`) are
  modelled by the inductive type `JVal`; Python dicts preserve insertion
  order, hence objects are association lists.
* Audio buffers (`np.ndarray` of samples) are modelled as `List Rat`
  when only the sample values / lengths matter, and as `List ℝ` where the
  trigonometric fade curves are involved.
* Python's stable `sorted(..., key=lambda c: c.index)` is modelled by
  Mathlib's stable `List.insertionSort` on the index order.
* Filesystem state touched by `_archive_chunk` is modelled explicitly by
  `ArchiveState` (whether the source chunk file exists, plus the list of
  file names in the archive directory).
-/
import Mathlib

set_option linter.unusedVariables false

/-! ### JSON values (`json.dump` / `json.loads` documents) -/

/-- A JSON value as produced by `json.dump` of the dictionaries built in
`vvproject/project.py`.  Python dicts keep insertion order, so objects are
modelled as ordered association lists. -/
inductive JVal where
  | jnum (n : Int)
  | jflt (q : Rat)
  | jstr (s : String)
  | jbool (b : Bool)
  | jarr (xs : List JVal)
  | jobj (fields : List (String × JVal))

/-! ### The data model (`vvproject/project.py`) -/

/-- `ChunkData` from `project.py` (lines 52-63).  `params` is an opaque
dict, modelled as JSON object fields. -/
structure ChunkData where
  index : Int
  filename : String
  text : String
  char_start : Int
  char_end : Int
  t_start_ms : Int
  duration_ms : Int
  seed : Int
  params : List (String × JVal)
  speaker_id : Int

/-- `ProjectSettings` from `project.py` (lines 9-19). -/
structure ProjectSettings where
  sample_rate : Int
  loudness_lufs : Rat
  model_name : String
  attention_type : String
  global_seed : Int
  crossfade_ms : Int
  chunks_dir : String
  final_mix : String
  default_params : List (String × JVal)

/-- `ProjectData` from `project.py` (lines 95-99).  The `root` path only
feeds derived filesystem paths and is not serialized by `to_dict`, so it is
omitted from the serialization model. -/
structure ProjectData where
  settings : ProjectSettings
  chunks : List ChunkData

/-- The key order used by every `sorted(..., key=lambda c: c.index)` in
`project.py`. -/
def chunkLe (a b : ChunkData) : Prop := a.index ≤ b.index

instance : DecidableRel chunkLe := fun a b => inferInstanceAs (Decidable (a.index ≤ b.index))

instance : IsTotal ChunkData chunkLe := ⟨fun a b => Int.le_total a.index b.index⟩

instance : IsTrans ChunkData chunkLe := ⟨fun _ _ _ => Int.le_trans⟩

/-- Python's `sorted(chunks, key=lambda c: c.index)`: a stable sort by
index, modelled by Mathlib's stable insertion sort. -/
def sortChunks (l : List ChunkData) : List ChunkData := l.insertionSort chunkLe

/-! ### Timeline recalculation (`project.py` lines 154-160) -/

/-- The loop body of `recalculate_timeline`: walk the chunks carrying the
running cursor `current_start`.  `chunk.t_start_ms = max(int(round(current_start)), 0)`;
`current_start` is always an `int`, so `int(round(...))` is the identity.
Then `current_start = t_start_ms + duration_ms - crossfade_ms`, clamped to 0. -/
def recalcGo (crossfade : Int) : Int → List ChunkData → List ChunkData
  | _, [] => []
  | current_start, c :: cs =>
    let t := max current_start 0
    let nxt := t + c.duration_ms - crossfade
    let nxt' := if nxt < 0 then 0 else nxt
    { c with t_start_ms := t } :: recalcGo crossfade nxt' cs

/-- `recalculate_timeline` (`project.py` lines 154-160): iterate
`sorted(project.chunks, key=lambda c: c.index)` assigning start times.
The Python loop mutates chunks in place; the model returns the updated
chunks in the (sorted) visitation order. -/
def recalculate_timeline (crossfade : Int) (chunks : List ChunkData) : List ChunkData :=
  recalcGo crossfade 0 (sortChunks chunks)

/-! ### Chunk lookup by timestamp (`project.py` lines 163-171) -/

/-- Does this chunk's half-open interval `[t_start_ms, t_start_ms + duration_ms)`
contain the timestamp?  (The `if start <= timestamp_ms < end` test.) -/
def coversTimestamp (t : Int) (c : ChunkData) : Bool :=
  decide (c.t_start_ms ≤ t) && decide (t < c.t_start_ms + c.duration_ms)

/-- `find_chunk_by_timestamp` (`project.py` lines 163-171): scan the chunks
sorted by index and return the first whose interval contains the timestamp;
otherwise, if the (list-order) last chunk exists and the timestamp is at or
beyond its start, return it; otherwise `None`. -/
def find_chunk_by_timestamp (chunks : List ChunkData) (timestamp_ms : Int) : Option ChunkData :=
  match (sortChunks chunks).find? (coversTimestamp timestamp_ms) with
  | some c => some c
  | none =>
    match chunks.getLast? with
    | some last => if timestamp_ms ≥ last.t_start_ms then some last else none
    | none => none

/-! ### Python rounding and durations (`audio.py`) -/

/-- Python's `round` (banker's rounding, half to even) applied to the
exact rational `a / b` with `b > 0`.  The float quotients rounded in
`audio.py` are modelled as exact fractions; the remainder `r = a - b*f`
satisfies `0 ≤ r < b`, and `r/b` is compared against `1/2` by comparing
`2*r` against `b`. -/
def pyRoundFrac (a b : Int) : Int :=
  let f := Int.fdiv a b
  let r := a - b * f
  if 2 * r < b then f
  else if b < 2 * r then f + 1
  else if f % 2 = 0 then f else f + 1

/-- `calculate_duration_ms` (`audio.py` lines 28-32):
`0` for empty data, else `int(round(len(data) * 1000.0 / sample_rate))`,
with the float quotient modelled exactly. -/
def calculate_duration_ms (len : Nat) (sample_rate : Int) : Int :=
  if len = 0 then 0 else pyRoundFrac ((len : Int) * 1000) sample_rate

/-- The exact target sample count of `time_stretch_to_duration`
(`audio.py` line 92): `max(int(round(target_duration_ms * sample_rate / 1000.0)), 1)`. -/
def desiredSamples (sample_rate target_duration_ms : Int) : Int :=
  max (pyRoundFrac (target_duration_ms * sample_rate) 1000) 1

/-- The final truncate-or-pad step of `time_stretch_to_duration`
(`audio.py` lines 96-99): hard-truncate a too-long stretch result,
zero-pad a too-short one. -/
def truncOrPad (stretched : List Rat) (desired : Nat) : List Rat :=
  if desired < stretched.length then stretched.take desired
  else if stretched.length < desired then
    stretched ++ List.replicate (desired - stretched.length) 0
  else stretched

/-- `time_stretch_to_duration` (`audio.py` lines 83-101).  The call to
`librosa.effects.time_stretch` is an external collaborator; it is modelled
by the parameter `stretchFn` (mapping the input data and the exact
`rate = current_duration_ms / target_duration_ms` to the stretched data).
Everything else follows the source: early returns for a non-positive
target, empty data, or zero current duration; then truncate or zero-pad
the stretched result to exactly `desiredSamples`. -/
def time_stretch_to_duration (stretchFn : List Rat → Rat → List Rat)
    (data : List Rat) (sample_rate target_duration_ms : Int) : List Rat :=
  if target_duration_ms ≤ 0 ∨ data.length = 0 then data
  else if calculate_duration_ms data.length sample_rate = 0 then data
  else
    truncOrPad
      (stretchFn data
        ((calculate_duration_ms data.length sample_rate : Rat) / (target_duration_ms : Rat)))
      (desiredSamples sample_rate target_duration_ms).toNat

/-- The duration-reconciliation step of `replace_chunk`
(`engine.py` lines 278-285): in locked mode with a positive stored duration,
time-stretch the new audio to the original duration and keep the stored
duration; otherwise accept the new audio and its freshly computed duration.
Returns the written audio together with the chunk's new `duration_ms`. -/
def replace_reconcile (stretchFn : List Rat → Rat → List Rat)
    (timeline_mode : String) (audio : List Rat)
    (sample_rate original_duration : Int) : List Rat × Int :=
  let new_duration := calculate_duration_ms audio.length sample_rate
  if timeline_mode = "locked" ∧ 0 < original_duration then
    (time_stretch_to_duration stretchFn audio sample_rate original_duration, original_duration)
  else
    (audio, new_duration)

/-! ### Cosine crossfade (`audio.py` lines 52-80) -/

open Real in
/-- The `i`-th point of `np.linspace(0, math.pi / 2.0, n, endpoint=False)`
(`audio.py` line 60): step `(π/2)/n`, value `i * step`. -/
noncomputable def fadeTheta (n i : ℕ) : ℝ := i * (Real.pi / 2) / n

open Real in
/-- The fade-out curve of `cosine_crossfade` (`audio.py` line 61): `cos²θ`. -/
noncomputable def fade_out (θ : ℝ) : ℝ := Real.cos θ ^ 2

open Real in
/-- The fade-in curve of `cosine_crossfade` (`audio.py` line 62): `sin²θ`. -/
noncomputable def fade_in (θ : ℝ) : ℝ := Real.sin θ ^ 2

/-- `cosine_crossfade` (`audio.py` lines 52-67).  `first[-n:]` is
`drop (len-n)`, `first[:-n]` is `take (len-n)`, `second[:n]` is `take n`,
`second[n:]` is `drop n`; the overlap is the pointwise
`first_tail * fade_out + second_head * fade_in`. -/
noncomputable def cosine_crossfade (first second : List ℝ) (crossfade_samples : Int) : List ℝ :=
  if crossfade_samples ≤ 0 ∨ first.length = 0 then first ++ second
  else
    let n := min crossfade_samples.toNat (min first.length second.length)
    if n = 0 then first ++ second
    else
      let fades := (List.range n).map (fadeTheta n)
      let overlap := List.zipWith (· + ·)
        (List.zipWith (· * ·) (first.drop (first.length - n)) (fades.map fade_out))
        (List.zipWith (· * ·) (second.take n) (fades.map fade_in))
      first.take (first.length - n) ++ overlap ++ second.drop n

/-- `stitch_chunks` (`audio.py` lines 70-80): left fold of pairwise
crossfades with `crossfade_samples = int(round(sample_rate * crossfade_ms / 1000.0))`;
an empty input yields the empty signal. -/
noncomputable def stitch_chunks (chunk_audios : List (List ℝ)) (sample_rate crossfade_ms : Int) : List ℝ :=
  match chunk_audios with
  | [] => []
  | c :: cs =>
    let crossfade_samples := pyRoundFrac (sample_rate * crossfade_ms) 1000
    cs.foldl (fun acc chunk => cosine_crossfade acc chunk crossfade_samples) c

/-! ### Chunk archiving (`engine.py` lines 172-183) -/

/-- The filesystem state `_archive_chunk` reads and writes: whether the
chunk's current audio file exists in the chunks directory, and the file
names present in the archive directory.  File names are lists of
characters. -/
structure ArchiveState where
  sourceExists : Bool
  archive : List (List Char)

/-- Does `name` match the glob pattern `{stem}__v*.flac`
(`engine.py` line 179)?  That is, `name = stem ++ "__v" ++ mid ++ ".flac"`
for some `mid`. -/
def matchesVersion (stem name : List Char) : Bool :=
  (stem ++ "__v".data).isPrefixOf name && ".flac".data.isSuffixOf name
    && decide ((stem ++ "__v".data).length + ".flac".data.length ≤ name.length)

/-- The archive file name `f"{stem}__v{version}.flac"` (`engine.py` line 181). -/
def versionName (stem : List Char) (version : Nat) : List Char :=
  stem ++ "__v".data ++ (toString version).data ++ ".flac".data

/-- `_archive_chunk` (`engine.py` lines 172-183): if the source file does
not exist, return `None` without touching anything; otherwise count the
existing `{stem}__v*.flac` files (the `sorted(...)` of `glob` only feeds
`len`, so the order is irrelevant), move the source to
`{stem}__v{count+1}.flac` and return that destination. -/
def archive_chunk (stem : List Char) (st : ArchiveState) : Option (List Char) × ArchiveState :=
  if st.sourceExists = false then (none, st)
  else
    let existing := st.archive.filter (matchesVersion stem)
    let version := existing.length + 1
    let destination := versionName stem version
    (some destination, { sourceExists := false, archive := st.archive ++ [destination] })

/-- One `replace_chunk` call as seen by the archive (`engine.py`
lines 250, 287): archive the current file, then write the new chunk audio
to the same source path (so the source exists again afterwards). -/
def replaceOnce (stem : List Char) (st : ArchiveState) : Option (List Char) × ArchiveState :=
  let (res, st') := archive_chunk stem st
  (res, { st' with sourceExists := true })

/-- The archive results of `k` sequential `replace_chunk` calls on the same
chunk. -/
def replaceSeq (stem : List Char) (st : ArchiveState) : Nat → List (Option (List Char))
  | 0 => []
  | k + 1 =>
    let (res, st') := replaceOnce stem st
    res :: replaceSeq stem st' k

/-! ### Text segmentation (`engine.py` lines 140-158) -/

/-- Python `str.find(pat, start)` (restricted to non-negative `start`):
the least index `i ≥ start` at which `pat` occurs in `script`, or `none`
(Python's `-1`). -/
def findFrom (script pat : List Char) (start : Nat) : Option Nat :=
  ((List.range (script.length + 1)).filter
    (fun i => decide (start ≤ i) && pat.isPrefixOf (script.drop i))).head?

/-- Python `str.strip()`: drop leading and trailing whitespace. -/
def pyStrip (l : List Char) : List Char :=
  ((l.dropWhile Char.isWhitespace).reverse.dropWhile Char.isWhitespace).reverse

/-- The cursor loop of `_chunk_script` (`engine.py` lines 144-158).
For each raw chunk: strip it; skip it if empty; locate it with
`script_text.find(chunk_text, cursor)`, falling back to
`script_text.find(chunk_text)` and then to the cursor position itself;
emit `(chunk_text, start, start + len(chunk_text))` and advance the cursor
to the end of the located span. -/
def chunkScriptGo (script : List Char) : Nat → List (List Char) → List (List Char × Nat × Nat)
  | _, [] => []
  | cursor, raw :: rest =>
    let chunk_text := pyStrip raw
    if chunk_text.isEmpty then chunkScriptGo script cursor rest
    else
      let idx :=
        match findFrom script chunk_text cursor with
        | some i => i
        | none =>
          match findFrom script chunk_text 0 with
          | some i => i
          | none => cursor
      (chunk_text, idx, idx + chunk_text.length) :: chunkScriptGo script (idx + chunk_text.length) rest

/-- `_chunk_script` (`engine.py` lines 140-158), parametrized by the raw
chunk list returned by the external splitter
(`BaseVibeVoiceNode._split_text_into_chunks`, which lives outside the
project core): the cursor starts at 0. -/
def chunk_script (script : List Char) (raw_chunks : List (List Char)) : List (List Char × Nat × Nat) :=
  chunkScriptGo script 0 raw_chunks

/-- Does every non-empty stripped raw chunk occur in the script at or after
the running cursor?  When this holds, `chunkScriptGo` never takes either
fallback branch (`engine.py` lines 150-153). -/
def allFoundFrom (script : List Char) : Nat → List (List Char) → Bool
  | _, [] => true
  | cursor, raw :: rest =>
    let chunk_text := pyStrip raw
    if chunk_text.isEmpty then allFoundFrom script cursor rest
    else
      match findFrom script chunk_text cursor with
      | some i => allFoundFrom script (i + chunk_text.length) rest
      | none => false

/-! ### Project generation (`engine.py` lines 186-232) -/

/-- `f"chunk_{idx:03d}.flac"` (`engine.py` line 211), for the positive
indices used there: zero-pad the decimal representation to width 3. -/
def chunkFilename (idx : Int) : String :=
  let s := toString idx
  let padded := if s.length < 3 then String.mk (List.replicate (3 - s.length) '0') ++ s else s
  "chunk_" ++ padded ++ ".flac"

/-- The per-chunk metadata loop of `generate_project` (`engine.py`
lines 206-229), with the audio I/O elided: each input pairs a segmented
span `(text, char_start, char_end)` with the duration of the rendered
audio (`calculate_duration_ms` of the renderer output).  `idx` enumerates
from 1; `seed = global_seed + idx - 1`; `t_start_ms = int(round(next_start))`
(`next_start` is an `int`, so the round is the identity); the cursor update
mirrors `recalculate_timeline`.  `add_chunk` is a plain append here because
the generated indices 1, 2, ... are fresh and increasing. -/
def generateGo (global_seed crossfade : Int) (tts_params : List (String × JVal)) :
    Int → Int → List ((List Char × Nat × Nat) × Int) → List ChunkData
  | _, _, [] => []
  | idx, next_start, ((text, char_start, char_end), duration_ms) :: rest =>
    let seed := global_seed + idx - 1
    let chunk : ChunkData :=
      { index := idx
        filename := chunkFilename idx
        text := String.mk text
        char_start := (char_start : Int)
        char_end := (char_end : Int)
        t_start_ms := next_start
        duration_ms := duration_ms
        seed := seed
        params := tts_params
        speaker_id := 0 }
    let nxt := chunk.t_start_ms + chunk.duration_ms - crossfade
    let nxt' := if nxt < 0 then 0 else nxt
    chunk :: generateGo global_seed crossfade tts_params (idx + 1) nxt' rest

/-- `generate_project`'s chunk list (`engine.py` lines 206-229):
enumeration starts at `idx = 1` with timeline cursor 0. -/
def generate_project_chunks (global_seed crossfade : Int)
    (tts_params : List (String × JVal))
    (inputs : List ((List Char × Nat × Nat) × Int)) : List ChunkData :=
  generateGo global_seed crossfade tts_params 1 0 inputs

/-! ### Serialization (`project.py` lines 21-49, 65-92, 117-121, 137-151) -/

/-- Dictionary key lookup (Python `payload[key]` / the hit case of
`payload.get`). -/
def jlookup (fields : List (String × JVal)) (key : String) : Option JVal :=
  match fields with
  | [] => none
  | (k, v) :: rest => if k = key then some v else jlookup rest key

/-- Python `payload.get(key, default)`. -/
def pyGet (fields : List (String × JVal)) (key : String) (default : JVal) : JVal :=
  (jlookup fields key).getD default

/-- Python `int(x)` on a JSON-loaded value.  Numeric strings (which Python
would also parse) never occur in documents produced by `to_dict`, so they
are not modelled; on them `int` is treated as failing. -/
def pyInt : JVal → Option Int
  | JVal.jnum n => some n
  | JVal.jflt q => some (q.num.tdiv q.den)
  | JVal.jbool b => some (if b then 1 else 0)
  | _ => none

/-- Python `float(x)` on a JSON-loaded value (same caveat on numeric
strings as `pyInt`). -/
def pyFloat : JVal → Option Rat
  | JVal.jnum n => some (n : Rat)
  | JVal.jflt q => some q
  | JVal.jbool b => some (if b then 1 else 0)
  | _ => none

/-- Python `str(x)`.  `str` never fails in Python, but in documents coming
from `to_dict` these fields are always strings, so other shapes (whose
Python rendering is irrelevant here) are treated as failing. -/
def pyStr : JVal → Option String
  | JVal.jstr s => some s
  | _ => none

/-- Python `dict(x)` for a JSON object (the only shape `to_dict` produces
for these fields). -/
def pyDict : JVal → Option (List (String × JVal))
  | JVal.jobj fields => some fields
  | _ => none

/-- `ProjectSettings.to_dict` (`project.py` lines 21-34): the eight fixed
fields in insertion order, plus `default_params` only when that dict is
non-empty (Python truthiness). -/
def ProjectSettings.to_dict (s : ProjectSettings) : JVal :=
  let data : List (String × JVal) :=
    [("sample_rate", JVal.jnum s.sample_rate),
     ("loudness_lufs", JVal.jflt s.loudness_lufs),
     ("model_name", JVal.jstr s.model_name),
     ("attention_type", JVal.jstr s.attention_type),
     ("global_seed", JVal.jnum s.global_seed),
     ("crossfade_ms", JVal.jnum s.crossfade_ms),
     ("chunks_dir", JVal.jstr s.chunks_dir),
     ("final_mix", JVal.jstr s.final_mix)]
  if s.default_params.isEmpty then JVal.jobj data
  else JVal.jobj (data ++ [("default_params", JVal.jobj s.default_params)])

/-- `ProjectSettings.from_dict` (`project.py` lines 36-49): read each field
with its documented default, converting with `int`/`float`/`str`/`dict`.
The payload must be a dict (`payload.get` otherwise raises). -/
def ProjectSettings.from_dict (payload : JVal) : Option ProjectSettings :=
  match payload with
  | JVal.jobj fields => do
    let default_params ← pyDict (pyGet fields "default_params" (JVal.jobj []))
    let sample_rate ← pyInt (pyGet fields "sample_rate" (JVal.jnum 24000))
    let loudness_lufs ← pyFloat (pyGet fields "loudness_lufs" (JVal.jflt (-16)))
    let model_name ← pyStr (pyGet fields "model_name" (JVal.jstr "VibeVoice-Large"))
    let attention_type ← pyStr (pyGet fields "attention_type" (JVal.jstr "auto"))
    let global_seed ← pyInt (pyGet fields "global_seed" (JVal.jnum 42))
    let crossfade_ms ← pyInt (pyGet fields "crossfade_ms" (JVal.jnum 40))
    let chunks_dir ← pyStr (pyGet fields "chunks_dir" (JVal.jstr "chunks"))
    let final_mix ← pyStr (pyGet fields "final_mix" (JVal.jstr "final_mix.flac"))
    some { sample_rate, loudness_lufs, model_name, attention_type,
           global_seed, crossfade_ms, chunks_dir, final_mix, default_params }
  | _ => none

/-- `ChunkData.to_dict` (`project.py` lines 65-77): all ten fields, in
insertion order. -/
def ChunkData.to_dict (c : ChunkData) : JVal :=
  JVal.jobj
    [("index", JVal.jnum c.index),
     ("filename", JVal.jstr c.filename),
     ("text", JVal.jstr c.text),
     ("char_start", JVal.jnum c.char_start),
     ("char_end", JVal.jnum c.char_end),
     ("t_start_ms", JVal.jnum c.t_start_ms),
     ("duration_ms", JVal.jnum c.duration_ms),
     ("seed", JVal.jnum c.seed),
     ("params", JVal.jobj c.params),
     ("speaker_id", JVal.jnum c.speaker_id)]

/-- `ChunkData.from_dict` (`project.py` lines 79-92): `index` and
`filename` are mandatory (`payload[...]`), the rest default. -/
def ChunkData.from_dict (payload : JVal) : Option ChunkData :=
  match payload with
  | JVal.jobj fields => do
    let index ← pyInt (← jlookup fields "index")
    let filename ← pyStr (← jlookup fields "filename")
    let text ← pyStr (pyGet fields "text" (JVal.jstr ""))
    let char_start ← pyInt (pyGet fields "char_start" (JVal.jnum 0))
    let char_end ← pyInt (pyGet fields "char_end" (JVal.jnum 0))
    let t_start_ms ← pyInt (pyGet fields "t_start_ms" (JVal.jnum 0))
    let duration_ms ← pyInt (pyGet fields "duration_ms" (JVal.jnum 0))
    let seed ← pyInt (pyGet fields "seed" (JVal.jnum 0))
    let params ← pyDict (pyGet fields "params" (JVal.jobj []))
    let speaker_id ← pyInt (pyGet fields "speaker_id" (JVal.jnum 0))
    some { index, filename, text, char_start, char_end, t_start_ms,
           duration_ms, seed, params, speaker_id }
  | _ => none

/-- `ProjectData.to_dict` (`project.py` lines 117-121), which is exactly
the document `save_project` writes (`project.py` lines 137-141): the
settings dict plus the chunk dicts sorted by index. -/
def save_project (p : ProjectData) : JVal :=
  JVal.jobj
    [("project", p.settings.to_dict),
     ("chunks", JVal.jarr ((sortChunks p.chunks).map ChunkData.to_dict))]

/-- `load_project` (`project.py` lines 144-151): parse the settings from
`payload.get("project", {})`, each chunk from `payload.get("chunks", [])`,
and sort the chunk list by index. -/
def load_project (payload : JVal) : Option ProjectData :=
  match payload with
  | JVal.jobj fields => do
    let settings ← ProjectSettings.from_dict (pyGet fields "project" (JVal.jobj []))
    let chunkVals ←
      match pyGet fields "chunks" (JVal.jarr []) with
      | JVal.jarr xs => some xs
      | _ => none
    let chunks ← chunkVals.mapM ChunkData.from_dict
    some { settings, chunks := sortChunks chunks }
  | _ => none

/-- A concrete chunk with the given index, start and duration (the other
fields are irrelevant defaults), used for concrete evaluations. -/
def sampleChunk (i t d : Int) : ChunkData :=
  { index := i, filename := "", text := "", char_start := 0, char_end := 0,
    t_start_ms := t, duration_ms := d, seed := 0, params := [], speaker_id := 0 }

/-! ### Timeline lemmas -/

theorem if_neg_clamp (x : Int) : (if x < 0 then 0 else x) = max x 0 := by
  rcases lt_or_ge x 0 with h | h
  · rw [if_pos h]
    exact (max_eq_right h.le).symm
  · rw [if_neg (not_lt.mpr h)]
    exact (max_eq_left h).symm

theorem recalcGo_map_duration (cf : Int) :
    ∀ (cur : Int) (l : List ChunkData),
      (recalcGo cf cur l).map (fun c => c.duration_ms) = l.map (fun c => c.duration_ms)
  | _, [] => rfl
  | cur, c :: cs => by
    simp only [recalcGo, List.map_cons]
    exact congrArg _ (recalcGo_map_duration cf _ cs)

theorem recalcGo_map_index (cf : Int) :
    ∀ (cur : Int) (l : List ChunkData),
      (recalcGo cf cur l).map (fun c => c.index) = l.map (fun c => c.index)
  | _, [] => rfl
  | cur, c :: cs => by
    simp only [recalcGo, List.map_cons]
    exact congrArg _ (recalcGo_map_index cf _ cs)

theorem recalcGo_tstart_nonneg (cf : Int) :
    ∀ (cur : Int) (l : List ChunkData), ∀ c ∈ recalcGo cf cur l, 0 ≤ c.t_start_ms
  | _, [], _, h => absurd h (List.not_mem_nil _)
  | cur, c :: cs, d, h => by
    simp only [recalcGo, List.mem_cons] at h
    rcases h with h | h
    · subst h
      exact le_max_right _ _
    · exact recalcGo_tstart_nonneg cf _ cs d h

theorem recalcGo_chain (cf : Int) :
    ∀ (cur : Int) (l : List ChunkData),
      List.Chain' (fun a b => b.t_start_ms = max (a.t_start_ms + a.duration_ms - cf) 0)
        (recalcGo cf cur l)
  | _, [] => List.chain'_nil
  | cur, [c] => List.chain'_singleton _
  | cur, c :: c' :: cs => by
    simp only [recalcGo]
    refine List.Chain'.cons ?_ ?_
    · show (max (if max cur 0 + c.duration_ms - cf < 0 then 0 else
          max cur 0 + c.duration_ms - cf) 0) = _
      rw [if_neg_clamp]
      rw [max_eq_left (le_max_right _ _)]
    · exact recalcGo_chain cf _ (c' :: cs)

theorem recalcGo_sorted (cf : Int) :
    ∀ (cur : Int) (l : List ChunkData), l.Sorted chunkLe → (recalcGo cf cur l).Sorted chunkLe
  | _, [], _ => List.sorted_nil
  | cur, c :: cs, h => by
    rcases List.pairwise_cons.mp h with ⟨hc, hcs⟩
    simp only [recalcGo]
    refine List.pairwise_cons.mpr ⟨?_, recalcGo_sorted cf _ cs hcs⟩
    intro b hb
    have hbidx : b.index ∈ (recalcGo cf (if max cur 0 + c.duration_ms - cf < 0 then 0 else
        max cur 0 + c.duration_ms - cf) cs).map (fun c => c.index) :=
      List.mem_map_of_mem _ hb
    rw [recalcGo_map_index] at hbidx
    rcases List.mem_map.mp hbidx with ⟨b₀, hb₀, hidx⟩
    show c.index ≤ b.index
    rw [← hidx]
    exact hc b₀ hb₀

theorem recalcGo_idem (cf : Int) :
    ∀ (cur : Int) (l : List ChunkData), recalcGo cf cur (recalcGo cf cur l) = recalcGo cf cur l
  | _, [] => rfl
  | cur, c :: cs => by
    simp only [recalcGo]
    exact congrArg _ (recalcGo_idem cf _ cs)

/-- Claim C1: for every project (every chunk list satisfying the data-model
invariant `duration_ms ≥ 0`, which `recalculate_timeline` does not touch)
and every crossfade setting, after `recalculate_timeline` every chunk has
`t_start_ms ≥ 0` and `duration_ms ≥ 0`; the first chunk (in index order)
starts at 0; and each following chunk's start is the cursor update
`t_start_ms + duration_ms - crossfade_ms` clamped to 0. -/
theorem c1_recalculate_timeline_nonneg (cf : Int) (chunks : List ChunkData)
    (hdur : ∀ c ∈ chunks, 0 ≤ c.duration_ms) :
    (∀ c ∈ recalculate_timeline cf chunks, 0 ≤ c.t_start_ms ∧ 0 ≤ c.duration_ms) ∧
    (∀ c cs', recalculate_timeline cf chunks = c :: cs' → c.t_start_ms = 0) ∧
    List.Chain' (fun a b => b.t_start_ms = max (a.t_start_ms + a.duration_ms - cf) 0)
      (recalculate_timeline cf chunks) := by
  refine ⟨?_, ?_, recalcGo_chain cf 0 (sortChunks chunks)⟩
  · intro c hc
    refine ⟨recalcGo_tstart_nonneg cf 0 (sortChunks chunks) c hc, ?_⟩
    have hd : c.duration_ms ∈ (recalcGo cf 0 (sortChunks chunks)).map (fun c => c.duration_ms) :=
      List.mem_map_of_mem _ hc
    rw [recalcGo_map_duration] at hd
    rcases List.mem_map.mp hd with ⟨c₀, hc₀, hdv⟩
    rw [← hdv]
    exact hdur c₀ ((List.perm_insertionSort chunkLe chunks).subset hc₀)
  · intro c cs' h
    unfold recalculate_timeline at h
    rcases hs : sortChunks chunks with _ | ⟨c₀, l⟩
    · rw [hs] at h
      exact absurd h (by simp [recalcGo])
    · rw [hs] at h
      simp only [recalcGo] at h
      have := (List.cons.injEq _ _ _ _).mp h
      rw [← this.1]
      rfl

/-- Claim C2: `recalculate_timeline` is idempotent — recomputing the
timeline on its own output (same indices, durations and crossfade) yields
exactly the same chunks, in particular the same `t_start_ms` everywhere. -/
theorem c2_recalculate_timeline_idempotent (cf : Int) (chunks : List ChunkData) :
    recalculate_timeline cf (recalculate_timeline cf chunks) = recalculate_timeline cf chunks := by
  unfold recalculate_timeline
  have hsorted : (recalcGo cf 0 (sortChunks chunks)).Sorted chunkLe :=
    recalcGo_sorted cf 0 _ (List.sorted_insertionSort chunkLe chunks)
  have : sortChunks (recalcGo cf 0 (sortChunks chunks)) = recalcGo cf 0 (sortChunks chunks) :=
    hsorted.insertionSort_eq
  rw [this, recalcGo_idem]

theorem c1_witness :
    (∀ c ∈ [sampleChunk 1 0 1000, sampleChunk 2 0 1000, sampleChunk 3 0 1000],
      0 ≤ c.duration_ms) ∧
    (∀ c ∈ recalculate_timeline 100
        [sampleChunk 1 0 1000, sampleChunk 2 0 1000, sampleChunk 3 0 1000],
      0 ≤ c.t_start_ms ∧ 0 ≤ c.duration_ms) :=
  ⟨by decide, (c1_recalculate_timeline_nonneg 100 _ (by decide)).1⟩

/-! ### Locked-mode duration preservation (C3) -/

/-- Claim C3 as stated is false: in locked mode with stored duration
`D = 100 > 0` and empty replacement audio (an imported zero-length file),
`time_stretch_to_duration` returns the audio unchanged, so the written
sample count is 0, not the target `round(100 * 24000 / 1000) = 2400`. -/
theorem c3_counterexample :
    ((replace_reconcile (fun d _ => d) "locked" [] 24000 100).1).length
      ≠ (desiredSamples 24000 100).toNat := by decide

/-- Claim C3 (amended): for a chunk with stored duration `D > 0`, if the
replacement audio itself has nonzero rounded duration (in particular is
non-empty), locked-mode replacement writes audio whose sample count is
exactly `max(round(D * sample_rate / 1000), 1)` — truncating a too-long
stretch result and zero-padding a too-short one — and the chunk's stored
`duration_ms` stays `D`. -/
theorem truncOrPad_length (s : List Rat) (d : Nat) : (truncOrPad s d).length = d := by
  unfold truncOrPad
  by_cases h1 : d < s.length
  · rw [if_pos h1]
    simp only [List.length_take]
    omega
  · rw [if_neg h1]
    by_cases h2 : s.length < d
    · rw [if_pos h2]
      simp only [List.length_append, List.length_replicate]
      omega
    · rw [if_neg h2]
      omega

theorem c3_locked_duration_preserved (stretchFn : List Rat → Rat → List Rat)
    (audio : List Rat) (sr D : Int) (hD : 0 < D)
    (hcur : calculate_duration_ms audio.length sr ≠ 0) :
    ((replace_reconcile stretchFn "locked" audio sr D).1).length = (desiredSamples sr D).toNat ∧
    (replace_reconcile stretchFn "locked" audio sr D).2 = D ∧
    (∀ stretched, stretched = stretchFn audio
        ((calculate_duration_ms audio.length sr : Rat) / (D : Rat)) →
      ((desiredSamples sr D).toNat < stretched.length →
        (replace_reconcile stretchFn "locked" audio sr D).1
          = stretched.take (desiredSamples sr D).toNat) ∧
      (stretched.length < (desiredSamples sr D).toNat →
        (replace_reconcile stretchFn "locked" audio sr D).1
          = stretched ++ List.replicate ((desiredSamples sr D).toNat - stretched.length) 0)) := by
  have hlen : ¬ audio.length = 0 := by
    intro h
    exact hcur (by simp [calculate_duration_ms, h])
  have hmode : ("locked" : String) = "locked" ∧ 0 < D := ⟨rfl, hD⟩
  have hfst : (replace_reconcile stretchFn "locked" audio sr D).1
      = time_stretch_to_duration stretchFn audio sr D := by
    unfold replace_reconcile
    rw [if_pos hmode]
  have hsnd : (replace_reconcile stretchFn "locked" audio sr D).2 = D := by
    unfold replace_reconcile
    rw [if_pos hmode]
  have hts : time_stretch_to_duration stretchFn audio sr D
      = truncOrPad
          (stretchFn audio ((calculate_duration_ms audio.length sr : Rat) / (D : Rat)))
          (desiredSamples sr D).toNat := by
    unfold time_stretch_to_duration
    rw [if_neg (by push_neg; exact ⟨by omega, hlen⟩), if_neg hcur]
  refine ⟨?_, hsnd, ?_⟩
  · rw [hfst, hts, truncOrPad_length]
  · rintro stretched hst
    constructor
    · intro h1
      rw [hfst, hts, ← hst]
      unfold truncOrPad
      rw [if_pos h1]
    · intro h2
      rw [hfst, hts, ← hst]
      unfold truncOrPad
      rw [if_neg (by omega), if_pos h2]

theorem c3_witness :
    (0 : Int) < 2 ∧ calculate_duration_ms ([1, 2, 3] : List Rat).length 1000 ≠ 0 ∧
    ((replace_reconcile (fun d _ => d) "locked" [1, 2, 3] 1000 2).1).length
      = (desiredSamples 1000 2).toNat :=
  ⟨by decide, by decide,
    (c3_locked_duration_preserved (fun d _ => d) [1, 2, 3] 1000 2 (by decide) (by decide)).1⟩

/-! ### Crossfade length (C4) -/

/-- Claim C4: for every pair of waveforms and `crossfade_samples ≥ 0` the
crossfaded length is `len(first) + len(second) - min(crossfade_samples,
len(first), len(second))`; plain concatenation results when
`crossfade_samples ≤ 0` or `first` is empty; and two-element
`stitch_chunks` is exactly the pairwise crossfade at
`round(sample_rate * crossfade_ms / 1000)` samples. -/
theorem c4_cosine_crossfade_length (first second : List ℝ) (cs : Int) :
    (0 ≤ cs → (cosine_crossfade first second cs).length
        = first.length + second.length - min cs.toNat (min first.length second.length)) ∧
    ((cs ≤ 0 ∨ first = []) → cosine_crossfade first second cs = first ++ second) ∧
    (∀ (sr cf : Int) (a b : List ℝ),
      stitch_chunks [a, b] sr cf = cosine_crossfade a b (pyRoundFrac (sr * cf) 1000)) := by
  refine ⟨?_, ?_, fun sr cf a b => rfl⟩
  · intro h0
    unfold cosine_crossfade
    by_cases h1 : cs ≤ 0 ∨ first.length = 0
    · rw [if_pos h1]
      rcases h1 with h1 | h1
      · have hz : cs = 0 := le_antisymm h1 h0
        subst hz
        simp [List.length_append]
      · simp [h1, List.length_append]
    · rw [if_neg h1]
      push_neg at h1
      by_cases hn : min cs.toNat (min first.length second.length) = 0
      · rw [if_pos hn]
        simp only [List.length_append]
        omega
      · rw [if_neg hn]
        have hle1 : min cs.toNat (min first.length second.length) ≤ first.length := by omega
        have hle2 : min cs.toNat (min first.length second.length) ≤ second.length := by omega
        simp only [List.length_append, List.length_take, List.length_drop,
          List.length_zipWith, List.length_map, List.length_range]
        omega
  · intro h
    unfold cosine_crossfade
    rw [if_pos (by rcases h with h | h; exact Or.inl h; exact Or.inr (by simp [h]))]

theorem c4_witness :
    (0 : Int) ≤ 2 ∧ (cosine_crossfade [1, 2, 3] [4, 5] 2).length
      = ([1, 2, 3] : List ℝ).length + ([4, 5] : List ℝ).length
        - min (Int.toNat 2) (min ([1, 2, 3] : List ℝ).length ([4, 5] : List ℝ).length) :=
  ⟨by norm_num, (c4_cosine_crossfade_length [1, 2, 3] [4, 5] 2).1 (by norm_num)⟩

/-! ### Fade curves (C5) -/

/-- Claim C5 as stated is false: at the middle sample of a two-sample
overlap (`θ = π/4`) the squares of the fade curves sum to `1/2`, not `1`
(the curves are `cos²θ` and `sin²θ`, so it is their plain sum that is 1). -/
theorem c5_counterexample :
    ¬ (fade_out (fadeTheta 2 1) ^ 2 + fade_in (fadeTheta 2 1) ^ 2 = 1) := by
  have hθ : fadeTheta 2 1 = Real.pi / 4 := by
    unfold fadeTheta
    push_cast
    ring
  have h2 : (Real.sqrt 2 / 2) ^ 2 = 1 / 2 := by
    rw [div_pow, Real.sq_sqrt (by norm_num : (0:ℝ) ≤ 2)]
    norm_num
  rw [hθ]
  unfold fade_out fade_in
  rw [Real.cos_pi_div_four, Real.sin_pi_div_four, h2]
  norm_num

/-- Claim C5 (amended): at every sample position of the crossfade overlap,
the fade curves used by `cosine_crossfade` satisfy
`fade_out + fade_in = 1` (an equal-gain, constant-sum crossfade; the
stated `fade_out² + fade_in² = 1` would require amplitude curves `cos θ`,
`sin θ` rather than the implemented `cos²θ`, `sin²θ`). -/
theorem c5_fade_sum (n i : ℕ) (h : i < n) :
    fade_out (fadeTheta n i) + fade_in (fadeTheta n i) = 1 := by
  unfold fade_out fade_in
  exact Real.cos_sq_add_sin_sq _

theorem c5_witness :
    1 < 2 ∧ fade_out (fadeTheta 2 1) + fade_in (fadeTheta 2 1) = 1 :=
  ⟨by norm_num, c5_fade_sum 2 1 (by norm_num)⟩

/-! ### Chunk lookup (C8) -/

/-- Claim C8 as stated is false: on a project whose timeline has a gap
(chunks `[0,10)` and `[100,110)`, both satisfying the data-model
invariants), timestamp 50 is at or after the first chunk's start and the
project is non-empty, yet `find_chunk_by_timestamp` returns `None`
(50 is in no interval and precedes the last chunk's start). -/
theorem c8_counterexample :
    (find_chunk_by_timestamp [sampleChunk 1 0 10, sampleChunk 2 100 10] 50).isNone = true
      ∧ (sampleChunk 1 0 10).t_start_ms ≤ 50 := by decide

theorem coverGapless (t : Int) :
    ∀ (cs : List ChunkData) (c0 : ChunkData),
      List.Chain' (fun a b => b.t_start_ms ≤ a.t_start_ms + a.duration_ms) (c0 :: cs) →
      c0.t_start_ms ≤ t →
      ((c0 :: cs).find? (coversTimestamp t)).isSome = true
        ∨ ((c0 :: cs).getLast (List.cons_ne_nil c0 cs)).t_start_ms ≤ t
  | [], c0, _, hle => by
    by_cases hc : coversTimestamp t c0 = true
    · left
      simp [List.find?_cons_of_pos _ hc]
    · right
      simpa using hle
  | c1 :: cs', c0, hchain, hle => by
    by_cases hc : coversTimestamp t c0 = true
    · left
      simp [List.find?_cons_of_pos _ hc]
    · have hend : c0.t_start_ms + c0.duration_ms ≤ t := by
        simp only [coversTimestamp, Bool.and_eq_true, decide_eq_true_eq] at hc
        push_neg at hc
        exact hc hle
      have hnext : c1.t_start_ms ≤ t :=
        le_trans (List.chain'_cons.mp hchain).1 hend
      have ih := coverGapless t cs' c1 (List.chain'_cons.mp hchain).2 hnext
      rcases ih with ih | ih
      · left
        rw [List.find?_cons_of_neg _ hc]
        exact ih
      · right
        rw [List.getLast_cons (List.cons_ne_nil c1 cs')]
        exact ih

/-- Claim C8 (amended): on a project whose chunk list is sorted by index
and whose timeline is gap-free with the first chunk starting no later than
any other (exactly what `recalculate_timeline` produces: consecutive starts
satisfy `next ≤ start + duration` when `crossfade_ms ≥ 0`, the first start
is 0 and all starts are ≥ 0), `find_chunk_by_timestamp` finds a chunk iff
the timestamp is at or after the first chunk's start — so `None` occurs
only for an empty project or a timestamp before the first start.  On an
arbitrary project a coverage gap can also yield `None` (see the
counterexample).  Moreover the hit case returns the first covering chunk
in index order, and the tail-overrun case returns the last chunk. -/
theorem c8_find_chunk_by_timestamp (c0 : ChunkData) (cs : List ChunkData) (t : Int)
    (hsorted : List.Sorted chunkLe (c0 :: cs))
    (hchain : List.Chain' (fun a b => b.t_start_ms ≤ a.t_start_ms + a.duration_ms) (c0 :: cs))
    (hmin : ∀ c ∈ c0 :: cs, c0.t_start_ms ≤ c.t_start_ms) :
    ((find_chunk_by_timestamp (c0 :: cs) t).isSome = true ↔ c0.t_start_ms ≤ t) ∧
    (∀ c, (c0 :: cs).find? (coversTimestamp t) = some c →
      find_chunk_by_timestamp (c0 :: cs) t = some c) ∧
    (∀ la, (c0 :: cs).find? (coversTimestamp t) = none → (c0 :: cs).getLast? = some la →
      la.t_start_ms ≤ t → find_chunk_by_timestamp (c0 :: cs) t = some la) := by
  have hs : sortChunks (c0 :: cs) = c0 :: cs := hsorted.insertionSort_eq
  refine ⟨⟨?_, ?_⟩, ?_, ?_⟩
  · intro hsome
    unfold find_chunk_by_timestamp at hsome
    rw [hs] at hsome
    rcases hf : (c0 :: cs).find? (coversTimestamp t) with _ | c
    · rw [hf] at hsome
      rcases hl : (c0 :: cs).getLast? with _ | la
      · rw [hl] at hsome
        simp at hsome
      · rw [hl] at hsome
        by_cases hge : la.t_start_ms ≤ t
        · exact le_trans (hmin la (List.mem_of_getLast?_eq_some hl)) hge
        · simp only [ge_iff_le, if_neg hge] at hsome
          simp at hsome
    · have hc := List.find?_some hf
      have hmem := List.mem_of_find?_eq_some hf
      simp only [coversTimestamp, Bool.and_eq_true, decide_eq_true_eq] at hc
      exact le_trans (hmin c hmem) hc.1
  · intro hle
    unfold find_chunk_by_timestamp
    rw [hs]
    rcases coverGapless t cs c0 hchain hle with h | h
    · rcases hf : (c0 :: cs).find? (coversTimestamp t) with _ | c
      · rw [hf] at h
        simp at h
      · simp
    · rcases hf : (c0 :: cs).find? (coversTimestamp t) with _ | c
      · rw [List.getLast?_eq_getLast (c0 :: cs) (List.cons_ne_nil c0 cs)]
        simp [h]
      · simp
  · intro c hf
    unfold find_chunk_by_timestamp
    rw [hs, hf]
  · intro la hf hl hle
    unfold find_chunk_by_timestamp
    rw [hs, hf, hl]
    simp [hle]

theorem c8_witness :
    List.Sorted chunkLe [sampleChunk 1 0 1000, sampleChunk 2 900 1000] ∧
    ((find_chunk_by_timestamp [sampleChunk 1 0 1000, sampleChunk 2 900 1000] 1500).isSome = true
      ↔ (sampleChunk 1 0 1000).t_start_ms ≤ 1500) :=
  ⟨by decide,
    (c8_find_chunk_by_timestamp (sampleChunk 1 0 1000) [sampleChunk 2 900 1000] 1500
      (by decide) (List.Chain'.cons (by decide) (List.chain'_singleton _)) (by decide)).1⟩

/-! ### Archive versioning (C6) -/

theorem matchesVersion_versionName (stem : List Char) (n : Nat) :
    matchesVersion stem (versionName stem n) = true := by
  unfold matchesVersion versionName
  refine (Bool.and_eq_true _ _).mpr ⟨(Bool.and_eq_true _ _).mpr ⟨?_, ?_⟩, ?_⟩
  · exact List.isPrefixOf_iff_prefix.mpr
      ⟨(toString n).data ++ ".flac".data, by simp⟩
  · exact List.isSuffixOf_iff_suffix.mpr
      ⟨stem ++ "__v".data ++ (toString n).data, by simp⟩
  · simp only [decide_eq_true_eq, List.length_append]
    omega

/-- Claim C6: if the chunk's current audio file does not exist, archiving
is a no-op returning "no archive created"; if it exists, it is moved to
`{stem}__v{N}.flac` with `N = (count of {stem}__v*.flac files already in
the archive directory) + 1`; and three sequential replacements of the same
chunk starting from an archive with no versions for that stem produce
`__v1`, `__v2`, `__v3` in order. -/
theorem c6_archive_chunk (stem : List Char) (st : ArchiveState) :
    (st.sourceExists = false → archive_chunk stem st = (none, st)) ∧
    (st.sourceExists = true →
      archive_chunk stem st
        = (some (versionName stem ((st.archive.filter (matchesVersion stem)).length + 1)),
           { sourceExists := false,
             archive := st.archive ++
               [versionName stem ((st.archive.filter (matchesVersion stem)).length + 1)] })) ∧
    (st.sourceExists = true → (st.archive.filter (matchesVersion stem)).length = 0 →
      replaceSeq stem st 3
        = [some (versionName stem 1), some (versionName stem 2), some (versionName stem 3)]) := by
  refine ⟨?_, ?_, ?_⟩
  · intro h
    unfold archive_chunk
    rw [if_pos h]
  · intro h
    unfold archive_chunk
    rw [if_neg (by simp [h])]
  · intro h hcount
    have hnil : st.archive.filter (matchesVersion stem) = [] :=
      List.length_eq_zero.mp hcount
    simp [replaceSeq, replaceOnce, archive_chunk, h, hnil, List.filter_append,
      matchesVersion_versionName]

theorem c6_witness :
    (⟨true, []⟩ : ArchiveState).sourceExists = true ∧
    replaceSeq "chunk_001".data ⟨true, []⟩ 3
      = [some (versionName "chunk_001".data 1), some (versionName "chunk_001".data 2),
         some (versionName "chunk_001".data 3)] :=
  ⟨rfl, (c6_archive_chunk "chunk_001".data ⟨true, []⟩).2.2 rfl rfl⟩

/-! ### Segmentation offsets (C9) -/

theorem findFrom_ge (script pat : List Char) (start i : Nat)
    (h : findFrom script pat start = some i) : start ≤ i := by
  unfold findFrom at h
  have hmem : i ∈ (List.range (script.length + 1)).filter
      (fun i => decide (start ≤ i) && pat.isPrefixOf (script.drop i)) :=
    List.mem_of_mem_head? (by rw [h]; rfl)
  have hcond := (List.mem_filter.mp hmem).2
  rcases Bool.and_eq_true _ _ |>.mp hcond with ⟨h1, _⟩
  exact of_decide_eq_true h1

theorem chunkScriptGo_found (script : List Char) :
    ∀ (raws : List (List Char)) (cursor : Nat),
      allFoundFrom script cursor raws = true →
      (∀ x ∈ chunkScriptGo script cursor raws,
        cursor ≤ x.2.1 ∧ x.2.2 = x.2.1 + x.1.length) ∧
      List.Chain' (fun a b => a.2.2 ≤ b.2.1) (chunkScriptGo script cursor raws) ∧
      List.Chain' (fun a b => a.2.1 ≤ b.2.1) (chunkScriptGo script cursor raws)
  | [], cursor, _ => by
    refine ⟨?_, ?_, ?_⟩ <;> simp [chunkScriptGo]
  | raw :: rest, cursor, h => by
    by_cases hemp : (pyStrip raw).isEmpty
    · rw [allFoundFrom, if_pos hemp] at h
      rw [chunkScriptGo, if_pos hemp]
      exact chunkScriptGo_found script rest cursor h
    · rw [allFoundFrom, if_neg hemp] at h
      rcases hfind : findFrom script (pyStrip raw) cursor with _ | i
      · rw [hfind] at h
        exact absurd h (by simp)
      · rw [hfind] at h
        have ih := chunkScriptGo_found script rest (i + (pyStrip raw).length) h
        have hgo : chunkScriptGo script cursor (raw :: rest)
            = (pyStrip raw, i, i + (pyStrip raw).length)
              :: chunkScriptGo script (i + (pyStrip raw).length) rest := by
          rw [chunkScriptGo, if_neg hemp, hfind]
        have hci : cursor ≤ i := findFrom_ge script (pyStrip raw) cursor i hfind
        rw [hgo]
        refine ⟨?_, ?_, ?_⟩
        · intro x hx
          rcases List.mem_cons.mp hx with hx1 | hx1
          · subst hx1
            exact ⟨hci, rfl⟩
          · rcases (ih.1 x hx1) with ⟨h1, h2⟩
            exact ⟨le_trans (le_trans hci (Nat.le_add_right _ _)) h1, h2⟩
        · refine List.chain'_cons'.mpr ⟨?_, ih.2.1⟩
          intro y hy
          exact (ih.1 y (List.mem_of_mem_head? hy)).1
        · refine List.chain'_cons'.mpr ⟨?_, ih.2.2⟩
          intro y hy
          exact le_trans (Nat.le_add_right _ _) (ih.1 y (List.mem_of_mem_head? hy)).1

/-- Claim C9 as stated is false: with script `"aXb"` and splitter output
`["Xb", "a"]`, the second span is not found at or after the cursor (which
sits at the end of the script), so the find-anywhere fallback of
`_chunk_script` places it at offset 0 — the offsets `[1, 0]` regress, and
the second span's start 0 also regresses past the previously advanced
cursor 3. -/
theorem c9_counterexample :
    ¬ List.Chain' (fun a b => a.2.1 ≤ b.2.1)
        (chunk_script ['a', 'X', 'b'] [['X', 'b'], ['a']]) ∧
    ¬ List.Chain' (fun a b => a.2.2 ≤ b.2.1)
        (chunk_script ['a', 'X', 'b'] [['X', 'b'], ['a']]) := by
  have e : chunk_script ['a', 'X', 'b'] [['X', 'b'], ['a']]
      = [(['X', 'b'], 1, 3), (['a'], 0, 1)] := by rfl
  constructor
  · intro h
    rw [e] at h
    have h2 := (List.chain'_cons.mp h).1
    simp at h2
  · intro h
    rw [e] at h
    have h2 := (List.chain'_cons.mp h).1
    simp at h2

/-- Claim C9 (amended): whenever every span's text is located in the
script at or after the running cursor (so neither fallback of
`_chunk_script` fires — the find-anywhere fallback can regress, as the
counterexample and the spec's own §9 note show), the emitted
`(char_start, char_end)` offsets are monotonically non-decreasing, no span
starts before the previously advanced cursor (`char_start` of each span is
at least the previous span's `char_end`), and the cursor always advances
to the end of the located span (`char_end = char_start + len(text)`). -/
theorem c9_offsets_monotone (script : List Char) (raws : List (List Char))
    (h : allFoundFrom script 0 raws = true) :
    List.Chain' (fun a b => a.2.2 ≤ b.2.1) (chunk_script script raws) ∧
    List.Chain' (fun a b => a.2.1 ≤ b.2.1) (chunk_script script raws) ∧
    (∀ x ∈ chunk_script script raws, x.2.2 = x.2.1 + x.1.length) := by
  have := chunkScriptGo_found script raws 0 h
  exact ⟨this.2.1, this.2.2, fun x hx => (this.1 x hx).2⟩

theorem c9_witness :
    allFoundFrom ['a', 'b', ' ', 'c', 'd'] 0 [['a', 'b'], ['c', 'd']] = true ∧
    List.Chain' (fun a b => a.2.2 ≤ b.2.1)
      (chunk_script ['a', 'b', ' ', 'c', 'd'] [['a', 'b'], ['c', 'd']]) :=
  ⟨by decide, (c9_offsets_monotone ['a', 'b', ' ', 'c', 'd'] [['a', 'b'], ['c', 'd']]
    (by decide)).1⟩

/-! ### Per-chunk seeds (C10) -/

theorem generateGo_index_seed (gs cf : Int) (params : List (String × JVal)) :
    ∀ (inputs : List ((List Char × Nat × Nat) × Int)) (idx cur : Int),
      (generateGo gs cf params idx cur inputs).map (fun c => (c.index, c.seed))
        = (List.range inputs.length).map
            (fun (i : Nat) => ((idx + i : Int), (gs + idx + i - 1 : Int)))
  | [], idx, cur => by simp [generateGo]
  | ⟨⟨text, cs, ce⟩, dur⟩ :: rest, idx, cur => by
    rw [generateGo]
    rw [List.length_cons, List.range_succ_eq_map, List.map_cons, List.map_cons, List.map_map]
    congr 1
    · simp
    · rw [generateGo_index_seed gs cf params rest (idx + 1) _]
      refine List.map_congr_left ?_
      intro i _
      simp only [Function.comp_apply, Prod.mk.injEq]
      constructor <;> push_cast <;> ring

/-- Claim C10: in the project produced by `generate_project`, the chunk at
1-based position `i` carries `index = i` and render seed
`global_seed + i - 1`, a deterministic function of the global seed and
position alone (independent of the crossfade, the render parameters, the
spans and the rendered durations). -/
theorem c10_generate_seed (gs cf : Int) (params : List (String × JVal))
    (inputs : List ((List Char × Nat × Nat) × Int)) :
    (generate_project_chunks gs cf params inputs).map (fun c => (c.index, c.seed))
      = (List.range inputs.length).map
          (fun (i : Nat) => ((i + 1 : Int), (gs + i : Int))) := by
  unfold generate_project_chunks
  rw [generateGo_index_seed]
  refine List.map_congr_left ?_
  intro i _
  simp only [Prod.mk.injEq]
  constructor <;> omega

/-! ### Persistence round-trip (C7) -/

theorem settings_roundtrip (s : ProjectSettings) :
    ProjectSettings.from_dict s.to_dict = some s := by
  obtain ⟨sr, ll, mn, att, gs, cf, cd, fm, dp⟩ := s
  cases dp with
  | nil => rfl
  | cons p l => rfl

theorem chunk_roundtrip (c : ChunkData) :
    ChunkData.from_dict c.to_dict = some c := by
  obtain ⟨i, f, tx, csn, cen, ts, d, sd, pa, sp⟩ := c
  rfl

theorem mapM_from_dict_to_dict (l : List ChunkData) :
    (l.map ChunkData.to_dict).mapM ChunkData.from_dict = some l := by
  induction l with
  | nil => rfl
  | cons c cs ih =>
    rw [List.map_cons, List.mapM_cons, chunk_roundtrip c, ih]
    rfl

theorem mapM_loop_from_dict_to_dict (l acc : List ChunkData) :
    List.mapM.loop ChunkData.from_dict (l.map ChunkData.to_dict) acc
      = some (acc.reverse ++ l) := by
  induction l generalizing acc with
  | nil => simp [List.mapM.loop]
  | cons c cs ih =>
    rw [List.map_cons, List.mapM.loop, chunk_roundtrip c]
    simp [ih]

theorem sortChunks_idem (l : List ChunkData) : sortChunks (sortChunks l) = sortChunks l :=
  (List.sorted_insertionSort chunkLe l).insertionSort_eq

/-- Claim C7: persistence round-trips.  Serializing any project, loading
the document back and serializing again reproduces the document
field-for-field (`save(load(save(p))) = save(p)`; the loaded project is
the saved one with its chunk list in index order).  And loading tolerates
missing optional fields, substituting the documented defaults instead of
failing: an empty settings object yields the documented settings defaults,
and a chunk object with only its mandatory `index`/`filename` yields the
documented chunk defaults. -/
theorem c7_save_load_roundtrip (p : ProjectData) :
    (load_project (save_project p) = some ⟨p.settings, sortChunks p.chunks⟩ ∧
     save_project ⟨p.settings, sortChunks p.chunks⟩ = save_project p) ∧
    ProjectSettings.from_dict (JVal.jobj [])
      = some { sample_rate := 24000, loudness_lufs := -16, model_name := "VibeVoice-Large",
               attention_type := "auto", global_seed := 42, crossfade_ms := 40,
               chunks_dir := "chunks", final_mix := "final_mix.flac", default_params := [] } ∧
    ChunkData.from_dict
        (JVal.jobj [("index", JVal.jnum 7), ("filename", JVal.jstr "chunk_007.flac")])
      = some { index := 7, filename := "chunk_007.flac", text := "", char_start := 0,
               char_end := 0, t_start_ms := 0, duration_ms := 0, seed := 0, params := [],
               speaker_id := 0 } := by
  obtain ⟨s, chunks⟩ := p
  refine ⟨⟨?_, ?_⟩, rfl, rfl⟩
  · simp [load_project, save_project, pyGet, jlookup, settings_roundtrip,
      mapM_from_dict_to_dict, mapM_loop_from_dict_to_dict, sortChunks_idem]
  · simp [save_project, sortChunks_idem]
